import Mathlib

/-!
Shallow embedding of the `instr` interpreter.

The embedding follows the Rust sources:
* `src/instrs.rs` — the instruction model (`Reg`, `Val`, `Instr`);
* `src/parse.rs` — `Token`, `AstLine`, `LabelError` and the label-resolution
  pass `resolve`;
* `src/run.rs` — the VM state `State` and the per-instruction operations,
  together with the fetch–execute step `run_instr`.

Machine integers: the Rust code computes on `i64`.  Cells are modelled as
`Int`; where the Rust operator wraps in release mode (`+=`, `*=`, `-=`, the
`as i64` cast) the result is reduced with `wrap64`.  Integer division on
`i64` is checked in every build profile: Rust panics on a zero divisor and on
`i64::MIN / -1`; both are modelled as error results.  `usize` values
(cursor, instruction pointer) are modelled as `Nat`; `saturating_sub 1` is
`Nat` subtraction.

Process I/O: `read_line` and `print!` act on ambient process streams in the
Rust code.  They are modelled by two extra fields of the state: `stdin`, the
list of lines a successful `read_line` will append (a line at true
end-of-input appends nothing, which is the `stdin = []` case), and `output`,
the list of strings written so far.
-/

/-- Model of `parse::Token`: a lexical unit with its literal text and byte-offset
span (a Rust `Range<usize>`, modelled as a pair). -/
structure Token where
  inner : String
  span : Nat × Nat
deriving DecidableEq, Repr

/-- Model of `instrs::Reg`. -/
inductive Reg where
  | X
  | Acc
deriving DecidableEq, Repr

/-- Model of `instrs::Val`: a signed 64-bit immediate or a reference to register x. -/
inductive Val where
  | Num (n : Int)
  | X
deriving DecidableEq, Repr

/-- Model of `instrs::Instr`: the 16 opcodes. -/
inductive Instr where
  | Gol
  | Gor
  | Get (r : Reg)
  | Put (r : Reg)
  | Jmp (label : Token)
  | Jnz (r : Reg) (label : Token)
  | Jlz (r : Reg) (label : Token)
  | Sav
  | Ret
  | Inp
  | Out
  | Set (v : Val)
  | Add (v : Val)
  | Mul (v : Val)
  | Div (v : Val)
  | Dec
deriving DecidableEq, Repr

/-- Model of `parse::AstLine`. -/
inductive AstLine where
  | Instr (i : Instr)
  | Label (t : Token)
  | Error
deriving DecidableEq, Repr

/-- Model of `parse::LabelError`. -/
inductive LabelError where
  | Unknown (t : Token)
  | Redefined (label : String) (first second : Nat × Nat)
deriving DecidableEq, Repr

/-- The label token of a jump instruction, if any — the pattern
`Instr::Jmp(token) | Instr::Jnz(_, token) | Instr::Jlz(_, token)`. -/
def jumpToken : Instr → Option Token
  | .Jmp t => some t
  | .Jnz _ t => some t
  | .Jlz _ t => some t
  | _ => none

/-- Pass 1 of `parse::resolve` (label collection).  The accumulators mirror
the Rust locals: `idx` is `instr_idx`, `labels` and `spans` are the two
hash maps (modelled as association lists; every insertion happens at an
absent key, so `List.lookup` agrees with the hash-map lookup), `errs` is the
error vector.  Note that `instr_idx` is incremented on every line that is
not a `Label` line — `Error` lines included. -/
def collectLabels : List AstLine → Nat → List (String × Nat) →
    List (String × (Nat × Nat)) → List LabelError →
    List (String × Nat) × List (String × (Nat × Nat)) × List LabelError
  | [], _, labels, spans, errs => (labels, spans, errs)
  | .Label t :: rest, idx, labels, spans, errs =>
    match spans.lookup t.inner with
    | some first =>
      collectLabels rest idx labels spans
        (errs ++ [.Redefined t.inner first t.span])
    | none =>
      collectLabels rest idx (labels ++ [(t.inner, idx)])
        (spans ++ [(t.inner, t.span)]) errs
  | _ :: rest, idx, labels, spans, errs =>
    collectLabels rest (idx + 1) labels spans errs

/-- Pass 2 of `parse::resolve` (reference validation): for every
`Jmp`/`Jnz`/`Jlz` instruction line whose label token is not a key of
`spans`, an `Unknown` error, in traversal order. -/
def checkRefs : List AstLine → List (String × (Nat × Nat)) → List LabelError
  | [], _ => []
  | .Instr i :: rest, spans =>
    (match jumpToken i with
     | some t =>
       if (spans.lookup t.inner).isNone then [LabelError.Unknown t] else []
     | none => []) ++ checkRefs rest spans
  | _ :: rest, spans => checkRefs rest spans

/-- The `filter_map` closure building the final program. -/
def instrOf : AstLine → Option Instr
  | .Instr i => some i
  | _ => none

/-- Model of `parse::resolve`. -/
def resolve (ast : List AstLine) :
    Except (List LabelError) (List Instr × List (String × Nat)) :=
  let r := collectLabels ast 0 [] [] []
  let errs := r.2.2 ++ checkRefs ast r.2.1
  let program := ast.filterMap instrOf
  if errs.isEmpty then .ok (program, r.1) else .error errs

/-- Reduction of an unbounded integer to the `i64` value with the same low
64 bits — the wrapping (release-mode) semantics of Rust `i64` arithmetic. -/
def wrap64 (n : Int) : Int := (n + 2 ^ 63) % 2 ^ 64 - 2 ^ 63

/-- The ways a run can abort (`run.rs` returns an `Err` for the first two;
the division cases are Rust panics; `inpDiverges` marks the infinite
`inp` recursion at true end-of-input). -/
inductive RunError where
  | retNegative
  | labelMissing
  | divByZero
  | divOverflow
  | inpDiverges
deriving DecidableEq, Repr

/-- Model of `run::ControlFlow`. -/
inductive ControlFlow where
  | Continue
  | Exit
deriving DecidableEq, Repr

/-- Model of `run::State`, with the two process streams made explicit (see the
module comment). -/
structure State where
  x : Int
  acc : Int
  tape : List Int
  cursor : Nat
  program : List Instr
  labels : List (String × Nat)
  instrPtr : Nat
  jumped : Bool
  inputBuf : List Nat
  inputCursor : Nat
  stdin : List (List Nat)
  output : List String
deriving DecidableEq, Repr

/-- Model of `State::new` (the streams start empty; tests override `stdin`). -/
def State.new (program : List Instr) (labels : List (String × Nat)) : State where
  x := 0
  acc := 0
  tape := []
  cursor := 0
  program := program
  labels := labels
  instrPtr := 0
  jumped := false
  inputBuf := []
  inputCursor := 0
  stdin := []
  output := []

/-- Model of `State::reg`. -/
def State.reg (s : State) : Reg → Int
  | .X => s.x
  | .Acc => s.acc

/-- The write half of `State::reg_mut`. -/
def State.regSet (s : State) : Reg → Int → State
  | .X, v => { s with x := v }
  | .Acc, v => { s with acc := v }

/-- Model of `State::grow`: `if cursor >= tape.len() { tape.resize(cursor + 1, 0) }`. -/
def State.grow (s : State) : State :=
  if s.tape.length ≤ s.cursor then
    { s with tape := s.tape ++ List.replicate (s.cursor + 1 - s.tape.length) 0 }
  else s

/-- Model of `State::cur`: grow, then read `tape[cursor]`. -/
def State.cur (s : State) : Int :=
  s.grow.tape.getD s.cursor 0

/-- Writing through `State::cur_mut`: grow, then set `tape[cursor]`. -/
def State.curSet (s : State) (v : Int) : State :=
  let g := s.grow
  { g with tape := g.tape.set g.cursor v }

/-- Model of `State::val_of`. -/
def State.valOf (s : State) : Val → Int
  | .Num n => n
  | .X => s.x

/-- Model of `State::gol` (`usize::saturating_sub` is `Nat` subtraction). -/
def State.gol (s : State) : State := { s with cursor := s.cursor - 1 }

/-- Model of `State::gor`. -/
def State.gor (s : State) : State := { s with cursor := s.cursor + 1 }

/-- Model of `State::get`. -/
def State.get (s : State) (r : Reg) : State := s.curSet (s.reg r)

/-- Model of `State::put`: `self.cur()` grows the tape before the register is
assigned. -/
def State.put (s : State) (r : Reg) : State :=
  let g := s.grow
  g.regSet r (g.tape.getD g.cursor 0)

/-- Model of `State::jmp`: `self.labels[&label.inner]` panics when the key is
absent, modelled as `labelMissing`; on success the `jumped` flag is set. -/
def State.jmp (s : State) (label : Token) : Except RunError State :=
  match s.labels.lookup label.inner with
  | some i => .ok { s with instrPtr := i, jumped := true }
  | none => .error .labelMissing

/-- Model of `State::jnz`. -/
def State.jnz (s : State) (r : Reg) (label : Token) : Except RunError State :=
  if s.reg r ≠ 0 then s.jmp label else .ok s

/-- Model of `State::jlz`. -/
def State.jlz (s : State) (r : Reg) (label : Token) : Except RunError State :=
  if s.reg r < 0 then s.jmp label else .ok s

/-- Model of `State::sav`: `*self.cur_mut() = self.instr_ptr as i64`. -/
def State.sav (s : State) : State := s.curSet (wrap64 s.instrPtr)

/-- Model of `State::ret`: `usize::try_from(self.cur())` fails exactly on a negative
value; on success only `instr_ptr` is assigned — the `jumped` flag is NOT
set. -/
def State.ret (s : State) : Except RunError State :=
  let g := s.grow
  let v := g.tape.getD g.cursor 0
  if 0 ≤ v then .ok { g with instrPtr := v.toNat } else .error .retNegative

/-- Model of `State::inp`.  The refill branch clears the buffer and appends one line
from `stdin`; with the old offset still 0 it recurses on the refilled
state, otherwise it writes the newline code 10 at the cursor and resets the
offset.  At true end-of-input (`stdin = []`) the recursion never
terminates, reported as `inpDiverges`. -/
def State.inp (s : State) : Except RunError State :=
  if s.inputCursor = s.inputBuf.length then
    match h : s.stdin with
    | [] =>
      if s.inputCursor = 0 then .error .inpDiverges
      else .ok { ({ s with inputBuf := ([] : List Nat) }).curSet 10 with inputCursor := 0 }
    | line :: rest =>
      if s.inputCursor = 0 then
        State.inp { s with inputBuf := line, stdin := rest }
      else
        .ok { ({ s with inputBuf := line, stdin := rest }).curSet 10 with inputCursor := 0 }
  else
    .ok { s.curSet ((s.inputBuf.getD s.inputCursor 0 : Nat) : Int) with
          inputCursor := s.inputCursor + 1 }
termination_by s.stdin.length
decreasing_by simp [h]


/-- Condition under which `u32::try_from(i64)` then `char::try_from(u32)`: the value is
printable exactly when it is a non-negative 32-bit value that is a Unicode
scalar value (below the surrogate range or between it and 0x10FFFF). -/
def printableCur (n : Int) : Prop :=
  0 ≤ n ∧ n < 2 ^ 32 ∧ (n < 0xD800 ∨ (0xE000 ≤ n ∧ n ≤ 0x10FFFF))

instance (n : Int) : Decidable (printableCur n) := by
  unfold printableCur; infer_instance

/-- The string `print!("({}: {chr})", self.cur())` writes. -/
def outString (n : Int) : String :=
  "(" ++ toString n ++ ": " ++ String.singleton (Char.ofNat n.toNat) ++ ")"

/-- Model of `State::out`: `self.cur()` grows the tape even when the conversions
fail; on failure nothing else happens. -/
def State.out (s : State) : State :=
  let g := s.grow
  let n := g.tape.getD g.cursor 0
  if printableCur n then { g with output := g.output ++ [outString n] } else g

/-- Model of `State::set`. -/
def State.set (s : State) (v : Val) : State := s.curSet (s.valOf v)

/-- Model of `State::add` (wrapping, per release-mode `+=`). -/
def State.add (s : State) (v : Val) : State :=
  let g := s.grow
  { g with tape := g.tape.set g.cursor (wrap64 (g.tape.getD g.cursor 0 + s.valOf v)) }

/-- Model of `State::mul` (wrapping, per release-mode `*=`). -/
def State.mul (s : State) (v : Val) : State :=
  let g := s.grow
  { g with tape := g.tape.set g.cursor (wrap64 (g.tape.getD g.cursor 0 * s.valOf v)) }

/-- Model of `State::div`: `i64` division panics on a zero divisor and on
`i64::MIN / -1`; otherwise it truncates toward zero (`Int.tdiv`). -/
def State.div (s : State) (v : Val) : Except RunError State :=
  let g := s.grow
  let d := s.valOf v
  let c := g.tape.getD g.cursor 0
  if d = 0 then .error .divByZero
  else if c = -(2 ^ 63) ∧ d = -1 then .error .divOverflow
  else .ok { g with tape := g.tape.set g.cursor (Int.tdiv c d) }

/-- Model of `State::dec` (wrapping, per release-mode `-=`). -/
def State.dec (s : State) : State := { s with acc := wrap64 (s.acc - 1) }

/-- The body of the `match instr` in `run_instr`; the fallible arms carry
the `?` propagation. -/
def State.execInstr (s : State) : Instr → Except RunError State
  | .Gol => .ok s.gol
  | .Gor => .ok s.gor
  | .Get r => .ok (s.get r)
  | .Put r => .ok (s.put r)
  | .Jmp label => s.jmp label
  | .Jnz r label => s.jnz r label
  | .Jlz r label => s.jlz r label
  | .Sav => .ok s.sav
  | .Ret => s.ret
  | .Inp => s.inp
  | .Out => .ok s.out
  | .Set v => .ok (s.set v)
  | .Add v => .ok (s.add v)
  | .Mul v => .ok (s.mul v)
  | .Div v => s.div v
  | .Dec => .ok s.dec

/-- Model of `State::run_instr`: fetch, execute, then either clear the `jumped`
flag or auto-increment the instruction pointer. -/
def State.runInstr (s : State) : Except RunError (ControlFlow × State) :=
  match s.program.get? s.instrPtr with
  | none => .ok (.Exit, s)
  | some instr =>
    match s.execInstr instr with
    | .error e => .error e
    | .ok s' =>
      if s'.jumped then
        .ok (.Continue, { s' with jumped := false })
      else
        .ok (.Continue, { s' with instrPtr := s'.instrPtr + 1 })

/-- The instructions whose execution reads or writes the tape (all of
Get, Put, Sav, Ret, Inp, Out, Set, Add, Mul, Div go through
`cur`/`cur_mut`); Gol, Gor, Jmp, Jnz, Jlz and Dec do not touch it. -/
def touchesTape : Instr → Bool
  | .Gol => false
  | .Gor => false
  | .Jmp _ => false
  | .Jnz _ _ => false
  | .Jlz _ _ => false
  | .Dec => false
  | _ => true

/-- The spans of the `Label`-line definitions of name `L`, in order. -/
def labelSpans (ast : List AstLine) (L : String) : List (Nat × Nat) :=
  ast.filterMap fun line =>
    match line with
    | .Label t => if t.inner = L then some t.span else none
    | _ => none

/-- The `Redefined` errors for name `L` within an error list. -/
def redefErrsFor (errs : List LabelError) (L : String) : List LabelError :=
  errs.filter fun e =>
    match e with
    | .Redefined l _ _ => l = L
    | _ => false

/-- The `Redefined` errors the spec predicts for a name whose definitions
have the given spans: one per later definition, each carrying the FIRST
definition's span. -/
def expectedRedefs (L : String) : List (Nat × Nat) → List LabelError
  | [] => []
  | sp1 :: rest => rest.map (LabelError.Redefined L sp1)

/-- The instruction index recorded for the first `Label L` line: the number
of non-`Label` lines before it, offset by `idx` (mirroring how
`collectLabels` advances `instr_idx`). -/
def firstDefIdx : List AstLine → String → Nat → Option Nat
  | [], _, _ => none
  | .Label t :: rest, L, idx =>
    if t.inner = L then some idx else firstDefIdx rest L idx
  | _ :: rest, L, idx => firstDefIdx rest L (idx + 1)

/-- The names of all `Label` lines, in order (with multiplicity). -/
def labelNames (ast : List AstLine) : List String :=
  ast.filterMap fun line =>
    match line with
    | .Label t => some t.inner
    | _ => none

/-- The label tokens of all jump instructions on `Instr` lines, in order. -/
def jumpTokens (ast : List AstLine) : List Token :=
  ast.filterMap fun line =>
    match line with
    | .Instr i => jumpToken i
    | _ => none

/-! ### Helper lemmas: association-list lookup -/

theorem lookup_append_of_eq_some {α β : Type} [BEq α] (l1 l2 : List (α × β))
    (k : α) (v : β) (h : l1.lookup k = some v) : (l1 ++ l2).lookup k = some v := by
  induction l1 with
  | nil => simp [List.lookup] at h
  | cons p rest ih =>
    obtain ⟨a, b⟩ := p
    simp only [List.cons_append, List.lookup] at h ⊢
    cases hk : k == a
    · rw [hk] at h; exact ih h
    · rw [hk] at h; exact h

theorem lookup_append_of_eq_none {α β : Type} [BEq α] (l1 l2 : List (α × β))
    (k : α) (h : l1.lookup k = none) : (l1 ++ l2).lookup k = l2.lookup k := by
  induction l1 with
  | nil => simp
  | cons p rest ih =>
    obtain ⟨a, b⟩ := p
    simp only [List.cons_append, List.lookup] at h ⊢
    cases hk : k == a
    · rw [hk] at h; exact ih h
    · rw [hk] at h; exact absurd h (by simp)

theorem lookup_singleton {α β : Type} [BEq α] (a : α) (b : β) (k : α) :
    ([(a, b)] : List (α × β)).lookup k = if k == a then some b else none := by
  simp only [List.lookup]
  cases hk : k == a <;> simp

/-! ### Helper lemmas: `State.grow` and cursor writes -/

/-- Lemma: `grow` changes only the tape. -/
theorem State.grow_eq_mk (s : State) : s.grow = { s with tape := s.grow.tape } := by
  unfold State.grow
  split <;> rfl

theorem State.grow_cursor (s : State) : s.grow.cursor = s.cursor := by
  rw [State.grow_eq_mk]

theorem State.grow_tape_of_le (s : State) (h : s.tape.length ≤ s.cursor) :
    s.grow.tape = s.tape ++ List.replicate (s.cursor + 1 - s.tape.length) 0 := by
  unfold State.grow
  simp [h]

theorem State.grow_of_lt (s : State) (h : s.cursor < s.tape.length) : s.grow = s := by
  unfold State.grow
  simp [Nat.not_le.mpr h]

theorem State.grow_tape_length (s : State) :
    s.grow.tape.length = max s.tape.length (s.cursor + 1) := by
  unfold State.grow
  split <;> rename_i h <;> simp <;> omega

theorem State.cursor_lt_grow_length (s : State) : s.cursor < s.grow.tape.length := by
  rw [State.grow_tape_length]
  omega

theorem State.grow_length_mono (s : State) : s.tape.length ≤ s.grow.tape.length := by
  rw [State.grow_tape_length]
  omega

theorem State.grow_tape_getD_of_lt (s : State) (i : Nat) (h : i < s.tape.length) :
    s.grow.tape.getD i 0 = s.tape.getD i 0 := by
  unfold State.grow
  split
  · exact List.getD_append _ _ _ _ h
  · rfl

theorem State.grow_tape_getD_of_ge (s : State) (i : Nat) (h : s.tape.length ≤ i) :
    s.grow.tape.getD i 0 = 0 := by
  unfold State.grow
  split
  · show (s.tape ++ List.replicate (s.cursor + 1 - s.tape.length) (0 : Int)).getD i 0 = 0
    rw [List.getD_append_right _ _ _ _ h, List.getD_eq_getElem?_getD]
    simp
  · rename_i hlt
    exact List.getD_eq_default _ _ (by omega)

/-- Projections of `grow`: only the tape changes. -/
@[simp] theorem State.grow_x (s : State) : s.grow.x = s.x := by rw [State.grow_eq_mk]

@[simp] theorem State.grow_acc (s : State) : s.grow.acc = s.acc := by rw [State.grow_eq_mk]

@[simp] theorem State.grow_program (s : State) : s.grow.program = s.program := by
  rw [State.grow_eq_mk]

@[simp] theorem State.grow_labels (s : State) : s.grow.labels = s.labels := by
  rw [State.grow_eq_mk]

@[simp] theorem State.grow_instrPtr (s : State) : s.grow.instrPtr = s.instrPtr := by
  rw [State.grow_eq_mk]

@[simp] theorem State.grow_jumped (s : State) : s.grow.jumped = s.jumped := by
  rw [State.grow_eq_mk]

@[simp] theorem State.grow_inputBuf (s : State) : s.grow.inputBuf = s.inputBuf := by
  rw [State.grow_eq_mk]

@[simp] theorem State.grow_inputCursor (s : State) : s.grow.inputCursor = s.inputCursor := by
  rw [State.grow_eq_mk]

@[simp] theorem State.grow_stdin (s : State) : s.grow.stdin = s.stdin := by
  rw [State.grow_eq_mk]

@[simp] theorem State.grow_output (s : State) : s.grow.output = s.output := by
  rw [State.grow_eq_mk]

attribute [simp] State.grow_cursor

/-- Lemma: `curSet` rewrites one cell of the grown tape and nothing else. -/
theorem State.curSet_eq (s : State) (v : Int) :
    s.curSet v = { s with tape := s.grow.tape.set s.cursor v } := by
  unfold State.curSet State.grow
  split <;> rfl

theorem State.curSet_tape (s : State) (v : Int) :
    (s.curSet v).tape = s.grow.tape.set s.cursor v := by rw [State.curSet_eq]

theorem State.curSet_tape_length (s : State) (v : Int) :
    (s.curSet v).tape.length = s.grow.tape.length := by
  rw [State.curSet_eq]
  simp

theorem State.curSet_length_mono (s : State) (v : Int) :
    s.tape.length ≤ (s.curSet v).tape.length := by
  rw [State.curSet_tape_length]
  exact s.grow_length_mono

theorem State.curSet_cursor_lt (s : State) (v : Int) :
    (s.curSet v).cursor < (s.curSet v).tape.length := by
  rw [State.curSet_eq]
  simpa using s.cursor_lt_grow_length

/-- Claim C8: any tape access (all go through `grow`, at index `cursor`) at an
index at least the tape length extends the tape to length exactly
`cursor + 1`, preserving existing cells and filling the new cells with 0 —
so the first read of an index yields 0 — while an access below the current
length leaves the state untouched. -/
theorem tape_growth_exact (s : State) :
    (s.tape.length ≤ s.cursor →
      s.grow.tape.length = s.cursor + 1 ∧
      (∀ i, i < s.tape.length → s.grow.tape.getD i 0 = s.tape.getD i 0) ∧
      (∀ i, s.tape.length ≤ i → s.grow.tape.getD i 0 = 0) ∧
      s.cur = 0) ∧
    (s.cursor < s.tape.length → s.grow = s) := by
  constructor
  · intro h
    refine ⟨?_, fun i hi => s.grow_tape_getD_of_lt i hi,
      fun i hi => s.grow_tape_getD_of_ge i hi, ?_⟩
    · rw [State.grow_tape_length]; omega
    · exact s.grow_tape_getD_of_ge s.cursor h
  · exact s.grow_of_lt

/-- Witness for `tape_growth_exact` at concrete states: a first access at
cursor 2 on an empty tape gives length 3, and an access at cursor 0 on a
one-cell tape changes nothing. -/
theorem tape_growth_exact_witness :
    ({ State.new [] [] with cursor := 2 }).grow.tape.length = 2 + 1 ∧
    ({ State.new [] [] with tape := [5] }).grow = { State.new [] [] with tape := [5] } :=
  ⟨((tape_growth_exact { State.new [] [] with cursor := 2 }).1 (by decide)).1,
   (tape_growth_exact { State.new [] [] with tape := [5] }).2 (by decide)⟩

/-- Claim C1, amended: when `Ret` executes on a non-negative `tape[cursor]`
value `v`, the instruction pointer is assigned `v` but the `jumped` flag is
NOT set, so the default auto-increment still applies and the step leaves
the instruction pointer at `v + 1` — the next instruction fetched is the
one after the saved index, not the saved index itself. -/
theorem ret_sets_instr_ptr_then_increments (s : State)
    (hfetch : s.program.get? s.instrPtr = some Instr.Ret)
    (hj : s.jumped = false) (hnn : 0 ≤ s.cur) :
    s.runInstr = .ok (ControlFlow.Continue, { s.grow with instrPtr := s.cur.toNat + 1 }) := by
  have hret : s.ret = .ok { s.grow with instrPtr := s.cur.toNat } := by
    simp only [State.ret, State.grow_cursor]
    rw [show s.grow.tape.getD s.cursor 0 = s.cur from rfl, if_pos hnn]
  simp only [State.runInstr, hfetch, State.execInstr, hret, State.grow_jumped, hj,
    Bool.false_eq_true, if_false]

/-- Witness for `ret_sets_instr_ptr_then_increments`: a one-instruction
program `[ret]` with a fresh tape (`tape[0]` reads 0). -/
theorem ret_sets_instr_ptr_then_increments_witness :
    (State.new [Instr.Ret] []).runInstr =
      .ok (ControlFlow.Continue,
        { (State.new [Instr.Ret] []).grow with
            instrPtr := (State.new [Instr.Ret] []).cur.toNat + 1 }) :=
  ret_sets_instr_ptr_then_increments (State.new [Instr.Ret] []) rfl rfl (by decide)

/-- Claim C1 counterexample: on the program `[ret]` with `tape[cursor] = 0`,
the claim predicts that the next instruction fetched is the one at the
saved index 0 (auto-increment suppressed); the code instead leaves the
instruction pointer at 1. -/
theorem ret_suppresses_increment_refuted :
    (State.new [Instr.Ret] []).runInstr =
      .ok (ControlFlow.Continue,
        { State.new [Instr.Ret] [] with tape := [0], instrPtr := 1 }) ∧
    ¬ (State.new [Instr.Ret] []).runInstr =
      .ok (ControlFlow.Continue,
        { State.new [Instr.Ret] [] with tape := [0], instrPtr := 0 }) := by
  refine ⟨rfl, fun hcontra => ?_⟩
  rw [show (State.new [Instr.Ret] []).runInstr =
      .ok (ControlFlow.Continue,
        { State.new [Instr.Ret] [] with tape := [0], instrPtr := 1 }) from rfl] at hcontra
  simp [State.mk.injEq] at hcontra

/-- Claim C7, amended: `div` with a divisor evaluating to 0 aborts with a
fatal error; so does the overflowing case `tape[cursor] = -2^63` with
divisor `-1` (whose truncating quotient `2^63` is not representable in
`i64` — Rust panics); in every other case the cell is replaced by the
truncating integer quotient.  No infinity or NaN can arise: the result is
always an integer or an abort. -/
theorem div_semantics (s : State) (v : Val) :
    (s.valOf v = 0 → s.div v = .error RunError.divByZero) ∧
    (s.cur = -(2 ^ 63) → s.valOf v = -1 → s.div v = .error RunError.divOverflow) ∧
    (s.valOf v ≠ 0 → ¬(s.cur = -(2 ^ 63) ∧ s.valOf v = -1) →
      s.div v = .ok { s.grow with
        tape := s.grow.tape.set s.cursor (Int.tdiv s.cur (s.valOf v)) }) := by
  have hcur : s.grow.tape.getD s.cursor 0 = s.cur := rfl
  refine ⟨fun h0 => ?_, fun hc hd => ?_, fun h0 hno => ?_⟩
  · simp only [State.div, State.grow_cursor, hcur]
    rw [if_pos h0]
  · simp only [State.div, State.grow_cursor, hcur]
    rw [if_neg (by rw [hd]; norm_num), if_pos ⟨hc, hd⟩]
  · simp only [State.div, State.grow_cursor, hcur]
    rw [if_neg h0, if_neg hno]

/-- Witness for `div_semantics`: `7 div -2` truncates to `-3`, and a zero
divisor is fatal. -/
theorem div_semantics_witness :
    State.div { State.new [] [] with tape := [7] } (Val.Num (-2)) =
      .ok { ({ State.new [] [] with tape := [7] }).grow with
        tape := ({ State.new [] [] with tape := [7] }).grow.tape.set 0
          (Int.tdiv ({ State.new [] [] with tape := [7] }).cur (-2)) } ∧
    State.div { State.new [] [] with tape := [7] } (Val.Num 0) =
      .error RunError.divByZero :=
  ⟨(div_semantics { State.new [] [] with tape := [7] } (Val.Num (-2))).2.2
      (by decide) (by decide),
   (div_semantics { State.new [] [] with tape := [7] } (Val.Num 0)).1 rfl⟩

/-- Claim C7 counterexample: the divisor `-1` is nonzero, yet with
`tape[cursor] = -2^63` the code aborts (Rust division-overflow panic)
instead of writing the truncating quotient `2^63`. -/
theorem div_nonzero_total_refuted :
    (-1 : Int) ≠ 0 ∧
    State.div { State.new [] [] with tape := [-(2 ^ 63)] } (Val.Num (-1)) =
      .error RunError.divOverflow :=
  ⟨by decide, rfl⟩

/-- Lemma: `out` changes no field but `output` and (through growth) `tape`. -/
theorem State.out_tape (s : State) : s.out.tape = s.grow.tape := by
  simp only [State.out]
  split <;> rfl

theorem State.out_fields (s : State) :
    s.out.x = s.x ∧ s.out.acc = s.acc ∧ s.out.cursor = s.cursor ∧
    s.out.instrPtr = s.instrPtr ∧ s.out.jumped = s.jumped ∧
    s.out.program = s.program ∧ s.out.labels = s.labels ∧
    s.out.inputBuf = s.inputBuf ∧ s.out.inputCursor = s.inputCursor ∧
    s.out.stdin = s.stdin := by
  simp only [State.out]
  split <;> simp

theorem State.out_output (s : State) :
    s.out.output = s.output ++ (if printableCur s.cur then [outString s.cur] else []) := by
  simp only [State.out, State.grow_cursor]
  rw [show s.grow.tape.getD s.cursor 0 = s.cur from rfl]
  split
  · simp
  · simp

/-- Claim C9: `out` writes the single string `(<decimal>: <char>)` exactly
when `tape[cursor]` is a non-negative 32-bit value that is a valid Unicode
scalar value (`printableCur`), and otherwise writes nothing; in both cases
every other component of the state — registers, cursor, instruction
pointer, `jumped` flag, program, labels, input state — is unchanged, the
existing tape cells are unchanged, and the only possible tape effect is
zero-extension up to the cursor. -/
theorem out_literal_iff_frame (s : State) :
    (s.out.output = s.output ++ (if printableCur s.cur then [outString s.cur] else [])) ∧
    s.out.x = s.x ∧ s.out.acc = s.acc ∧ s.out.cursor = s.cursor ∧
    s.out.instrPtr = s.instrPtr ∧ s.out.jumped = s.jumped ∧
    s.out.program = s.program ∧ s.out.labels = s.labels ∧
    s.out.inputBuf = s.inputBuf ∧ s.out.inputCursor = s.inputCursor ∧
    s.out.stdin = s.stdin ∧
    (∀ i, i < s.tape.length → s.out.tape.getD i 0 = s.tape.getD i 0) ∧
    (∀ i, s.tape.length ≤ i → s.out.tape.getD i 0 = 0) ∧
    s.tape.length ≤ s.out.tape.length := by
  obtain ⟨hx, hacc, hcur, hip, hj, hprog, hlab, hib, hic, hstd⟩ := s.out_fields
  refine ⟨s.out_output, hx, hacc, hcur, hip, hj, hprog, hlab, hib, hic, hstd, ?_, ?_, ?_⟩
  · intro i hi
    rw [State.out_tape]
    exact s.grow_tape_getD_of_lt i hi
  · intro i hi
    rw [State.out_tape]
    exact s.grow_tape_getD_of_ge i hi
  · rw [State.out_tape]
    exact s.grow_length_mono

/-- Witness for `out_literal_iff_frame` on `tape = [65]`: the output is the
single literal string and the existing cell is untouched. -/
theorem out_literal_iff_frame_witness :
    ({ State.new [] [] with tape := [65] }).out.output =
      ([] : List String) ++
        (if printableCur ({ State.new [] [] with tape := [65] }).cur
         then [outString ({ State.new [] [] with tape := [65] }).cur] else []) ∧
    ({ State.new [] [] with tape := [65] }).out.tape.getD 0 0 =
      ({ State.new [] [] with tape := [65] } : State).tape.getD 0 0 := by
  obtain ⟨h1, _, _, _, _, _, _, _, _, _, _, h2, _, _⟩ :=
    out_literal_iff_frame { State.new [] [] with tape := [65] }
  exact ⟨h1, h2 0 (by decide)⟩

theorem State.curSet_cursor (s : State) (v : Int) : (s.curSet v).cursor = s.cursor := by
  rw [State.curSet_eq]

theorem State.regSet_tape (s : State) (r : Reg) (v : Int) : (s.regSet r v).tape = s.tape := by
  cases r <;> rfl

theorem State.regSet_cursor (s : State) (r : Reg) (v : Int) :
    (s.regSet r v).cursor = s.cursor := by
  cases r <;> rfl

/-- A successful `inp` never shrinks the tape, never moves the cursor, and
always leaves the cursor strictly inside the tape (its final action is a
write through `cur_mut`). -/
theorem State.inp_ok_tape :
    ∀ (n : Nat) (s s' : State), s.stdin.length = n → s.inp = .ok s' →
      s.tape.length ≤ s'.tape.length ∧ s'.cursor = s.cursor ∧
        s'.cursor < s'.tape.length := by
  intro n
  induction n using Nat.strong_induction_on with
  | _ n ih =>
    intro s s' hlen h
    rw [State.inp.eq_def] at h
    split at h
    · split at h
      · split at h
        · exact absurd h (by simp)
        · injection h with h
          subst h
          exact ⟨State.curSet_length_mono { s with inputBuf := [] } 10,
            State.curSet_cursor { s with inputBuf := [] } 10,
            State.curSet_cursor_lt { s with inputBuf := [] } 10⟩
      · rename_i line rest hstdin
        split at h
        · have hlt : rest.length < n := by
            rw [← hlen, hstdin]
            simp
          exact ih rest.length hlt { s with inputBuf := line, stdin := rest } s' rfl h
        · injection h with h
          subst h
          exact ⟨State.curSet_length_mono { s with inputBuf := line, stdin := rest } 10,
            State.curSet_cursor { s with inputBuf := line, stdin := rest } 10,
            State.curSet_cursor_lt { s with inputBuf := line, stdin := rest } 10⟩
    · injection h with h
      subst h
      exact ⟨State.curSet_length_mono s (Int.ofNat (s.inputBuf.getD s.inputCursor 0)),
        State.curSet_cursor s (Int.ofNat (s.inputBuf.getD s.inputCursor 0)),
        State.curSet_cursor_lt s (Int.ofNat (s.inputBuf.getD s.inputCursor 0))⟩

/-- Per-opcode form of the C10 invariants: a successfully executed opcode
never shrinks the tape, and a tape-touching opcode leaves the cursor
strictly inside the tape. -/
theorem State.execInstr_ok_tape (s : State) (instr : Instr) (s1 : State)
    (h : s.execInstr instr = .ok s1) :
    s.tape.length ≤ s1.tape.length ∧
      (touchesTape instr = true → s1.cursor < s1.tape.length) := by
  cases instr with
  | Gol =>
    injection h with h
    subst h
    exact ⟨Nat.le_refl _, by simp [touchesTape]⟩
  | Gor =>
    injection h with h
    subst h
    exact ⟨Nat.le_refl _, by simp [touchesTape]⟩
  | Get r =>
    injection h with h
    subst h
    exact ⟨State.curSet_length_mono s (s.reg r), fun _ => State.curSet_cursor_lt s (s.reg r)⟩
  | Put r =>
    injection h with h
    subst h
    have h1 : (s.put r).tape = s.grow.tape := by
      simp only [State.put]
      rw [State.regSet_tape]
    have h2 : (s.put r).cursor = s.cursor := by
      simp only [State.put]
      rw [State.regSet_cursor, State.grow_cursor]
    refine ⟨?_, fun _ => ?_⟩
    · rw [h1]
      exact s.grow_length_mono
    · rw [h1, h2]
      exact s.cursor_lt_grow_length
  | Jmp label =>
    simp only [State.execInstr, State.jmp] at h
    split at h
    · injection h with h
      subst h
      exact ⟨Nat.le_refl _, by simp [touchesTape]⟩
    · exact absurd h (by simp)
  | Jnz r label =>
    simp only [State.execInstr, State.jnz, State.jmp] at h
    split at h
    · split at h
      · injection h with h
        subst h
        exact ⟨Nat.le_refl _, by simp [touchesTape]⟩
      · exact absurd h (by simp)
    · injection h with h
      subst h
      exact ⟨Nat.le_refl _, by simp [touchesTape]⟩
  | Jlz r label =>
    simp only [State.execInstr, State.jlz, State.jmp] at h
    split at h
    · split at h
      · injection h with h
        subst h
        exact ⟨Nat.le_refl _, by simp [touchesTape]⟩
      · exact absurd h (by simp)
    · injection h with h
      subst h
      exact ⟨Nat.le_refl _, by simp [touchesTape]⟩
  | Sav =>
    injection h with h
    subst h
    exact ⟨State.curSet_length_mono s (wrap64 s.instrPtr),
      fun _ => State.curSet_cursor_lt s (wrap64 s.instrPtr)⟩
  | Ret =>
    simp only [State.execInstr, State.ret] at h
    split at h
    · injection h with h
      subst h
      refine ⟨s.grow_length_mono, fun _ => ?_⟩
      show s.grow.cursor < s.grow.tape.length
      rw [State.grow_cursor]
      exact s.cursor_lt_grow_length
    · exact absurd h (by simp)
  | Inp =>
    obtain ⟨hm, _, hlt⟩ := State.inp_ok_tape s.stdin.length s s1 rfl h
    exact ⟨hm, fun _ => hlt⟩
  | Out =>
    injection h with h
    subst h
    refine ⟨?_, fun _ => ?_⟩
    · rw [State.out_tape]
      exact s.grow_length_mono
    · rw [State.out_tape, s.out_fields.2.2.1]
      exact s.cursor_lt_grow_length
  | Set v =>
    injection h with h
    subst h
    exact ⟨State.curSet_length_mono s (s.valOf v),
      fun _ => State.curSet_cursor_lt s (s.valOf v)⟩
  | Add v =>
    injection h with h
    subst h
    refine ⟨?_, fun _ => ?_⟩
    · show s.tape.length ≤
        (s.grow.tape.set s.grow.cursor (wrap64 (s.grow.tape.getD s.grow.cursor 0 + s.valOf v))).length
      rw [List.length_set]
      exact s.grow_length_mono
    · show s.grow.cursor <
        (s.grow.tape.set s.grow.cursor (wrap64 (s.grow.tape.getD s.grow.cursor 0 + s.valOf v))).length
      rw [List.length_set, State.grow_cursor]
      exact s.cursor_lt_grow_length
  | Mul v =>
    injection h with h
    subst h
    refine ⟨?_, fun _ => ?_⟩
    · show s.tape.length ≤
        (s.grow.tape.set s.grow.cursor (wrap64 (s.grow.tape.getD s.grow.cursor 0 * s.valOf v))).length
      rw [List.length_set]
      exact s.grow_length_mono
    · show s.grow.cursor <
        (s.grow.tape.set s.grow.cursor (wrap64 (s.grow.tape.getD s.grow.cursor 0 * s.valOf v))).length
      rw [List.length_set, State.grow_cursor]
      exact s.cursor_lt_grow_length
  | Div v =>
    simp only [State.execInstr, State.div] at h
    split at h
    · exact absurd h (by simp)
    · split at h
      · exact absurd h (by simp)
      · injection h with h
        subst h
        refine ⟨?_, fun _ => ?_⟩
        · show s.tape.length ≤
            (s.grow.tape.set s.grow.cursor
              (Int.tdiv (s.grow.tape.getD s.grow.cursor 0) (s.valOf v))).length
          rw [List.length_set]
          exact s.grow_length_mono
        · show s.grow.cursor <
            (s.grow.tape.set s.grow.cursor
              (Int.tdiv (s.grow.tape.getD s.grow.cursor 0) (s.valOf v))).length
          rw [List.length_set, State.grow_cursor]
          exact s.cursor_lt_grow_length
  | Dec =>
    injection h with h
    subst h
    exact ⟨Nat.le_refl _, by simp [touchesTape]⟩

/-- Claim C10: across every successfully executed instruction the tape length
never decreases; growth itself preserves every existing cell; and whenever
the executed instruction reads or writes the tape, the cursor ends the
step strictly below the tape length. -/
theorem run_instr_tape_invariants (s : State) (cf : ControlFlow) (s' : State)
    (h : s.runInstr = .ok (cf, s')) :
    s.tape.length ≤ s'.tape.length ∧
    (∀ i, i < s.tape.length → s.grow.tape.getD i 0 = s.tape.getD i 0) ∧
    (∀ instr, s.program.get? s.instrPtr = some instr → touchesTape instr = true →
      s'.cursor < s'.tape.length) := by
  refine ?_
  unfold State.runInstr at h
  split at h
  · rename_i hfetch
    injection h with h
    injection h with hcf hs
    subst hs
    refine ⟨Nat.le_refl _, fun i hi => s.grow_tape_getD_of_lt i hi, fun instr hinstr _ => ?_⟩
    rw [hfetch] at hinstr
    exact absurd hinstr (by simp)
  · rename_i instr hfetch
    split at h
    · exact absurd h (by simp)
    · rename_i s1 hexec
      obtain ⟨hm, ht⟩ := State.execInstr_ok_tape s instr s1 hexec
      split at h
      · injection h with h
        injection h with hcf hs
        subst hs
        refine ⟨hm, fun i hi => s.grow_tape_getD_of_lt i hi, fun instr2 hfetch2 htouch => ?_⟩
        rw [hfetch] at hfetch2
        injection hfetch2 with hi2
        subst hi2
        exact ht htouch
      · injection h with h
        injection h with hcf hs
        subst hs
        refine ⟨hm, fun i hi => s.grow_tape_getD_of_lt i hi, fun instr2 hfetch2 htouch => ?_⟩
        rw [hfetch] at hfetch2
        injection hfetch2 with hi2
        subst hi2
        exact ht htouch

/-- Witness for `run_instr_tape_invariants`: one `set 5` step on a fresh
state grows the tape to `[5]` and leaves the cursor (0) inside it. -/
theorem run_instr_tape_invariants_witness :
    ({ State.new [Instr.Set (Val.Num 5)] [] with tape := ([] : List Int) } :
        State).tape.length ≤
      ({ State.new [Instr.Set (Val.Num 5)] [] with tape := [5], instrPtr := 1 } :
        State).tape.length ∧
    ({ State.new [Instr.Set (Val.Num 5)] [] with tape := [5], instrPtr := 1 } :
        State).cursor <
      ({ State.new [Instr.Set (Val.Num 5)] [] with tape := [5], instrPtr := 1 } :
        State).tape.length := by
  obtain ⟨h1, _, h3⟩ := run_instr_tape_invariants (State.new [Instr.Set (Val.Num 5)] [])
    ControlFlow.Continue
    { State.new [Instr.Set (Val.Num 5)] [] with tape := [5], instrPtr := 1 } rfl
  exact ⟨h1, h3 (Instr.Set (Val.Num 5)) rfl rfl⟩

/-- Case of `inp`, buffer not exhausted: serve the next byte. -/
theorem State.inp_serve (s : State) (h : ¬ s.inputCursor = s.inputBuf.length) :
    s.inp = .ok { s.curSet ((s.inputBuf.getD s.inputCursor 0 : Nat) : Int) with
      inputCursor := s.inputCursor + 1 } := by
  rw [State.inp.eq_def, if_neg h]

/-- Case of `inp`, buffer exhausted at a nonzero offset: one line is consumed from
`stdin` (none remains consumable at end of input), the newline code 10 is
written at the cursor and the offset resets — whatever the fresh line
contains. -/
theorem State.inp_refill_nonzero (s : State) (hex : s.inputCursor = s.inputBuf.length)
    (h0 : ¬ s.inputCursor = 0) :
    s.inp =
      .ok { ({ s with inputBuf := s.stdin.headD [], stdin := s.stdin.tail }).curSet 10 with
        inputCursor := 0 } := by
  rw [State.inp.eq_def, if_pos hex]
  cases hs : s.stdin with
  | nil =>
    dsimp only
    rw [if_neg h0]
    rfl
  | cons line rest =>
    dsimp only
    rw [if_neg h0]
    rfl

/-- Case of `inp`, buffer exhausted at offset 0 with a nonempty line available: the
read is retried on the refilled buffer and its first byte is served. -/
theorem State.inp_refill_zero_serve (s : State) (line : List Nat) (rest : List (List Nat))
    (hex : s.inputCursor = s.inputBuf.length) (h0 : s.inputCursor = 0)
    (hs : s.stdin = line :: rest) (hne : ¬ line = []) :
    s.inp = .ok { ({ s with inputBuf := line, stdin := rest }).curSet
        ((line.getD 0 0 : Nat) : Int) with inputCursor := 1 } := by
  rw [State.inp.eq_def, if_pos hex, hs]
  dsimp only
  rw [if_pos h0]
  have hns : ¬ ({ s with inputBuf := line, stdin := rest } : State).inputCursor =
      ({ s with inputBuf := line, stdin := rest } : State).inputBuf.length := by
    show ¬ s.inputCursor = line.length
    rw [h0]
    exact fun hc => hne (List.length_eq_zero.mp hc.symm)
  rw [State.inp_serve _ hns]
  rw [show ({ s with inputBuf := line, stdin := rest } : State).inputCursor = 0 from h0]

/-- Case of `inp`, buffer exhausted at offset 0 at true end of input: the retry
loop never terminates. -/
theorem State.inp_refill_zero_eof (s : State) (hex : s.inputCursor = s.inputBuf.length)
    (h0 : s.inputCursor = 0) (hs : s.stdin = []) :
    s.inp = .error RunError.inpDiverges := by
  rw [State.inp.eq_def, if_pos hex, hs]
  dsimp only
  rw [if_pos h0]

/-- Claim C3, amended: when the buffer is not exhausted, `inp` writes the
next byte at the cursor and advances the read offset.  When the buffer is
exhausted, it clears it and reads one line; the retry is governed by the
OLD read offset, not by the fresh line: at a nonzero offset it writes the
newline code 10 and resets the offset regardless of the fresh line's
content, while at offset 0 it retries on the fresh buffer, serving that
line's first byte when the line is nonempty, and looping forever at true
end of input. -/
theorem inp_cases (s : State) :
    (¬ s.inputCursor = s.inputBuf.length →
      s.inp = .ok { s.curSet ((s.inputBuf.getD s.inputCursor 0 : Nat) : Int) with
        inputCursor := s.inputCursor + 1 }) ∧
    (s.inputCursor = s.inputBuf.length → ¬ s.inputCursor = 0 →
      s.inp =
        .ok { ({ s with inputBuf := s.stdin.headD [], stdin := s.stdin.tail }).curSet 10 with
          inputCursor := 0 }) ∧
    (∀ line rest, s.inputCursor = s.inputBuf.length → s.inputCursor = 0 →
      s.stdin = line :: rest → ¬ line = [] →
      s.inp = .ok { ({ s with inputBuf := line, stdin := rest }).curSet
          ((line.getD 0 0 : Nat) : Int) with inputCursor := 1 }) ∧
    (s.inputCursor = s.inputBuf.length → s.inputCursor = 0 → s.stdin = [] →
      s.inp = .error RunError.inpDiverges) :=
  ⟨s.inp_serve,
   s.inp_refill_nonzero,
   fun line rest hex h0 hs hne => s.inp_refill_zero_serve line rest hex h0 hs hne,
   s.inp_refill_zero_eof⟩

/-- Witness for `inp_cases`: the offset-0 refill case on stdin line
`"hi\n"` (bytes 104 105 10) serves byte 104, and the in-buffer case serves
the pending byte. -/
theorem inp_cases_witness :
    State.inp { State.new [] [] with stdin := [[104, 105, 10]] } =
      .ok { ({ State.new [] [] with inputBuf := [104, 105, 10] }).curSet ((104 : Nat) : Int) with inputCursor := 1 } ∧
    State.inp { State.new [] [] with inputBuf := [104, 105, 10], inputCursor := 1 } =
      .ok { ({ State.new [] [] with inputBuf := [104, 105, 10], inputCursor := 1 }).curSet ((105 : Nat) : Int) with inputCursor := 1 + 1 } :=
  ⟨((inp_cases { State.new [] [] with stdin := [[104, 105, 10]] }).2.2.1
      [104, 105, 10] [] rfl rfl rfl (by decide)),
   ((inp_cases { State.new [] [] with inputBuf := [104, 105, 10], inputCursor := 1 }).1
      (by decide))⟩

/-- Claim C3 counterexample: on a state with an exhausted (empty) buffer and
the pending stdin line `"hi\n"` (bytes 104 105 10), the claim predicts
that the newline code 10 is written at the cursor; the code instead
retries on the fresh buffer and writes its first byte 104. -/
theorem inp_refill_writes_newline_refuted :
    State.inp { State.new [] [] with stdin := [[104, 105, 10]] } =
      .ok { State.new [] [] with tape := [104], inputBuf := [104, 105, 10], inputCursor := 1 } ∧
    (104 : Int) ≠ 10 := by
  constructor
  · rw [State.inp_refill_zero_serve { State.new [] [] with stdin := [[104, 105, 10]] }
      [104, 105, 10] [] rfl rfl rfl (by decide)]
    rfl
  · decide

theorem redefErrsFor_append (a b : List LabelError) (L : String) :
    redefErrsFor (a ++ b) L = redefErrsFor a L ++ redefErrsFor b L := by
  simp [redefErrsFor]

/-- Pass 2 produces only `Unknown` errors. -/
theorem checkRefs_no_redefs (lines : List AstLine) (spans : List (String × (Nat × Nat)))
    (L : String) : redefErrsFor (checkRefs lines spans) L = [] := by
  induction lines with
  | nil => simp [checkRefs, redefErrsFor]
  | cons line rest ih =>
    cases line with
    | Instr i =>
      rw [show checkRefs (.Instr i :: rest) spans =
        (match jumpToken i with
         | some t =>
           if (spans.lookup t.inner).isNone then [LabelError.Unknown t] else []
         | none => []) ++ checkRefs rest spans from rfl, redefErrsFor_append, ih]
      cases ht : jumpToken i with
      | some t =>
        by_cases hl : (spans.lookup t.inner).isNone <;> simp [ht, hl, redefErrsFor]
      | none => simp [ht, redefErrsFor]
    | Label t => simpa [checkRefs] using ih
    | Error => simpa [checkRefs] using ih

/-- Accumulator invariant for pass 1, once `L` is already in the span
table with span `sp1`: the tables never change at `L`, and every later
`Label L` line contributes one `Redefined` error whose first span is
`sp1`. -/
theorem collectLabels_seen (lines : List AstLine) (idx : Nat)
    (labels : List (String × Nat)) (spans : List (String × (Nat × Nat)))
    (errs : List LabelError) (L : String) (sp1 : Nat × Nat)
    (hsp : spans.lookup L = some sp1) :
    (collectLabels lines idx labels spans errs).2.1.lookup L = some sp1 ∧
    (collectLabels lines idx labels spans errs).1.lookup L = labels.lookup L ∧
    redefErrsFor (collectLabels lines idx labels spans errs).2.2 L =
      redefErrsFor errs L ++ (labelSpans lines L).map (LabelError.Redefined L sp1) := by
  induction lines generalizing idx labels spans errs with
  | nil => exact ⟨hsp, rfl, by simp [collectLabels, labelSpans]⟩
  | cons line rest ih =>
    cases line with
    | Label t =>
      by_cases ht : t.inner = L
      · have hlk : spans.lookup t.inner = some sp1 := by rw [ht]; exact hsp
        simp only [collectLabels, hlk]
        obtain ⟨h1, h2, h3⟩ :=
          ih idx labels spans (errs ++ [.Redefined t.inner sp1 t.span]) hsp
        refine ⟨h1, h2, ?_⟩
        rw [h3, redefErrsFor_append]
        simp [redefErrsFor, labelSpans, ht]
      · cases hlk : spans.lookup t.inner with
        | some first =>
          simp only [collectLabels, hlk]
          obtain ⟨h1, h2, h3⟩ :=
            ih idx labels spans (errs ++ [.Redefined t.inner first t.span]) hsp
          refine ⟨h1, h2, ?_⟩
          rw [h3, redefErrsFor_append]
          simp [redefErrsFor, labelSpans, ht]
        | none =>
          simp only [collectLabels, hlk]
          have hsp' : (spans ++ [(t.inner, t.span)]).lookup L = some sp1 :=
            lookup_append_of_eq_some _ _ _ _ hsp
          obtain ⟨h1, h2, h3⟩ :=
            ih idx (labels ++ [(t.inner, idx)]) (spans ++ [(t.inner, t.span)]) errs hsp'
          refine ⟨h1, ?_, ?_⟩
          · rw [h2]
            cases hl : labels.lookup L with
            | some v => exact lookup_append_of_eq_some _ _ _ _ hl
            | none =>
              rw [lookup_append_of_eq_none _ _ _ hl, lookup_singleton]
              have hb : (L == t.inner) = false :=
                beq_eq_false_iff_ne.mpr fun hh => ht hh.symm
              simp [hb]
          · rw [h3]
            simp [labelSpans, ht]
    | Instr i =>
      simp only [collectLabels]
      obtain ⟨h1, h2, h3⟩ := ih (idx + 1) labels spans errs hsp
      exact ⟨h1, h2, by rw [h3]; simp [labelSpans]⟩
    | Error =>
      simp only [collectLabels]
      obtain ⟨h1, h2, h3⟩ := ih (idx + 1) labels spans errs hsp
      exact ⟨h1, h2, by rw [h3]; simp [labelSpans]⟩

/-- Accumulator invariant for pass 1 while `L` is absent from both tables:
the first `Label L` line (if any) fixes the tables' entries at `L`, and the
errors for `L` are exactly one `Redefined` per later definition, each
carrying the first definition's span. -/
theorem collectLabels_unseen (lines : List AstLine) (idx : Nat)
    (labels : List (String × Nat)) (spans : List (String × (Nat × Nat)))
    (errs : List LabelError) (L : String)
    (hsp : spans.lookup L = none) (hlab : labels.lookup L = none) :
    (collectLabels lines idx labels spans errs).2.1.lookup L =
      (labelSpans lines L).head? ∧
    (collectLabels lines idx labels spans errs).1.lookup L = firstDefIdx lines L idx ∧
    redefErrsFor (collectLabels lines idx labels spans errs).2.2 L =
      redefErrsFor errs L ++ expectedRedefs L (labelSpans lines L) := by
  induction lines generalizing idx labels spans errs with
  | nil =>
    exact ⟨by simp [collectLabels, labelSpans, hsp], by simp [collectLabels, firstDefIdx, hlab],
      by simp [collectLabels, labelSpans, expectedRedefs]⟩
  | cons line rest ih =>
    cases line with
    | Label t =>
      by_cases ht : t.inner = L
      · have hlk : spans.lookup t.inner = none := by rw [ht]; exact hsp
        simp only [collectLabels, hlk]
        have hsp' : (spans ++ [(t.inner, t.span)]).lookup L = some t.span := by
          rw [lookup_append_of_eq_none _ _ _ hsp, lookup_singleton]
          have hb : (L == t.inner) = true := by rw [ht]; exact beq_self_eq_true L
          simp [hb]
        obtain ⟨h1, h2, h3⟩ := collectLabels_seen rest idx (labels ++ [(t.inner, idx)])
          (spans ++ [(t.inner, t.span)]) errs L t.span hsp'
        refine ⟨?_, ?_, ?_⟩
        · rw [h1]
          simp [labelSpans, ht]
        · rw [h2, lookup_append_of_eq_none _ _ _ hlab, lookup_singleton]
          have hb : (L == t.inner) = true := by rw [ht]; exact beq_self_eq_true L
          simp [hb, firstDefIdx, ht]
        · rw [h3]
          simp [labelSpans, expectedRedefs, ht]
      · cases hlk : spans.lookup t.inner with
        | some first =>
          simp only [collectLabels, hlk]
          obtain ⟨h1, h2, h3⟩ :=
            ih idx labels spans (errs ++ [.Redefined t.inner first t.span]) hsp hlab
          refine ⟨by rw [h1]; simp [labelSpans, ht],
            by rw [h2]; simp [firstDefIdx, ht], ?_⟩
          rw [h3, redefErrsFor_append]
          simp [redefErrsFor, labelSpans, ht]
        | none =>
          simp only [collectLabels, hlk]
          have hb : (L == t.inner) = false :=
            beq_eq_false_iff_ne.mpr fun hh => ht hh.symm
          have hsp' : (spans ++ [(t.inner, t.span)]).lookup L = none := by
            rw [lookup_append_of_eq_none _ _ _ hsp, lookup_singleton]
            simp [hb]
          have hlab' : (labels ++ [(t.inner, idx)]).lookup L = none := by
            rw [lookup_append_of_eq_none _ _ _ hlab, lookup_singleton]
            simp [hb]
          obtain ⟨h1, h2, h3⟩ :=
            ih idx (labels ++ [(t.inner, idx)]) (spans ++ [(t.inner, t.span)]) errs hsp' hlab'
          exact ⟨by rw [h1]; simp [labelSpans, ht],
            by rw [h2]; simp [firstDefIdx, ht],
            by rw [h3]; simp [labelSpans, ht]⟩
    | Instr i =>
      simp only [collectLabels]
      obtain ⟨h1, h2, h3⟩ := ih (idx + 1) labels spans errs hsp hlab
      exact ⟨by rw [h1]; simp [labelSpans], by rw [h2]; simp [firstDefIdx],
        by rw [h3]; simp [labelSpans]⟩
    | Error =>
      simp only [collectLabels]
      obtain ⟨h1, h2, h3⟩ := ih (idx + 1) labels spans errs hsp hlab
      exact ⟨by rw [h1]; simp [labelSpans], by rw [h2]; simp [firstDefIdx],
        by rw [h3]; simp [labelSpans]⟩

/-- Claim C4: the first `Label L` line fixes the span table's and the label
table's entries at `L` permanently (the table entry is the instruction
index at the first definition); every later definition of `L` — the
second, the third, and so on — contributes exactly one `Redefined` error
whose first span is the span of the ORIGINAL definition and whose second
span is its own; and pass 2 adds no `Redefined` error, so this is also the
full `Redefined` content of `resolve`'s aggregated error list. -/
theorem resolve_first_definition_wins (ast : List AstLine) (L : String) :
    (collectLabels ast 0 [] [] []).2.1.lookup L = (labelSpans ast L).head? ∧
    (collectLabels ast 0 [] [] []).1.lookup L = firstDefIdx ast L 0 ∧
    redefErrsFor (collectLabels ast 0 [] [] []).2.2 L =
      expectedRedefs L (labelSpans ast L) ∧
    redefErrsFor ((collectLabels ast 0 [] [] []).2.2 ++
        checkRefs ast (collectLabels ast 0 [] [] []).2.1) L =
      expectedRedefs L (labelSpans ast L) := by
  obtain ⟨h1, h2, h3⟩ := collectLabels_unseen ast 0 [] [] [] L rfl rfl
  have h3' : redefErrsFor (collectLabels ast 0 [] [] []).2.2 L =
      expectedRedefs L (labelSpans ast L) := by
    rw [h3]
    simp [redefErrsFor]
  refine ⟨h1, h2, h3', ?_⟩
  rw [redefErrsFor_append, h3', checkRefs_no_redefs]
  simp

/-- Claim C2, evaluated at the failing input: in the AST
`[Error, Label "a", Dec, Jmp "a"]` the label `a` resolves to index 1
because the Error line consumed an index, even though the instruction
immediately following the label in the instruction-only program
`[Dec, Jmp a]` is `Dec` at index 0 — so the jump lands on itself instead. -/
theorem resolve_error_line_consumes_index :
    resolve [AstLine.Error, AstLine.Label ⟨"a", (2, 3)⟩, AstLine.Instr Instr.Dec,
        AstLine.Instr (Instr.Jmp ⟨"a", (11, 12)⟩)] =
      .ok ([Instr.Dec, Instr.Jmp ⟨"a", (11, 12)⟩], [("a", 1)]) ∧
    ([AstLine.Error, AstLine.Label ⟨"a", (2, 3)⟩, AstLine.Instr Instr.Dec,
        AstLine.Instr (Instr.Jmp ⟨"a", (11, 12)⟩)].filterMap instrOf).get? 0 =
      some Instr.Dec :=
  ⟨rfl, rfl⟩

theorem labelNames_cons_label (t : Token) (rest : List AstLine) :
    labelNames (.Label t :: rest) = t.inner :: labelNames rest := by
  simp [labelNames]

theorem labelNames_cons_instr (i : Instr) (rest : List AstLine) :
    labelNames (.Instr i :: rest) = labelNames rest := by
  simp [labelNames]

theorem labelNames_cons_error (rest : List AstLine) :
    labelNames (.Error :: rest) = labelNames rest := by
  simp [labelNames]

theorem lookup_append_singleton_isSome {β : Type} (l : List (String × β))
    (k a : String) (b : β) :
    ((l ++ [(a, b)]).lookup k).isSome ↔ (l.lookup k).isSome ∨ k = a := by
  cases hl : l.lookup k with
  | some v => simp [lookup_append_of_eq_some _ _ _ _ hl]
  | none =>
    rw [lookup_append_of_eq_none _ _ _ hl, lookup_singleton]
    by_cases hb : k = a
    · simp [hb]
    · have hbf : (k == a) = false := beq_eq_false_iff_ne.mpr hb
      simp [hbf, hb]

/-- Pass 1 produces no error exactly when no label name is defined twice
(relative to what the span table already contains). -/
theorem collectLabels_errs_nil_iff (lines : List AstLine) (idx : Nat)
    (labels : List (String × Nat)) (spans : List (String × (Nat × Nat)))
    (errs : List LabelError) :
    (collectLabels lines idx labels spans errs).2.2 = [] ↔
      (errs = [] ∧ (labelNames lines).Nodup ∧
        ∀ n ∈ labelNames lines, spans.lookup n = none) := by
  induction lines generalizing idx labels spans errs with
  | nil => simp [collectLabels, labelNames]
  | cons line rest ih =>
    cases line with
    | Label t =>
      rw [labelNames_cons_label]
      cases hlk : spans.lookup t.inner with
      | some first =>
        simp only [collectLabels, hlk]
        rw [ih]
        constructor
        · rintro ⟨happ, -, -⟩
          exact absurd happ (by simp)
        · rintro ⟨-, -, hall⟩
          exact absurd (hall t.inner (List.mem_cons_self _ _)) (by simp [hlk])
      | none =>
        simp only [collectLabels, hlk]
        rw [ih]
        constructor
        · rintro ⟨he, hnd, hall⟩
          have hnm : t.inner ∉ labelNames rest := by
            intro hmem
            have hx := hall t.inner hmem
            rw [lookup_append_of_eq_none _ _ _ hlk, lookup_singleton] at hx
            simp at hx
          refine ⟨he, List.nodup_cons.mpr ⟨hnm, hnd⟩, fun n hn => ?_⟩
          rcases List.mem_cons.mp hn with rfl | hn'
          · exact hlk
          · have hx := hall n hn'
            cases hsn : spans.lookup n with
            | none => rfl
            | some v =>
              rw [lookup_append_of_eq_some _ _ _ _ hsn] at hx
              exact absurd hx (by simp)
        · rintro ⟨he, hnd, hall⟩
          obtain ⟨hnm, hnd'⟩ := List.nodup_cons.mp hnd
          refine ⟨he, hnd', fun n hn => ?_⟩
          rw [lookup_append_of_eq_none _ _ _ (hall n (List.mem_cons_of_mem _ hn)),
            lookup_singleton]
          have hbf : (n == t.inner) = false :=
            beq_eq_false_iff_ne.mpr fun hh => hnm (hh ▸ hn)
          simp [hbf]
    | Instr i =>
      simp only [collectLabels]
      rw [ih, labelNames_cons_instr]
    | Error =>
      simp only [collectLabels]
      rw [ih, labelNames_cons_error]

theorem jumpTokens_cons_instr_some (i : Instr) (t : Token) (rest : List AstLine)
    (h : jumpToken i = some t) :
    jumpTokens (.Instr i :: rest) = t :: jumpTokens rest := by
  simp [jumpTokens, h]

theorem jumpTokens_cons_instr_none (i : Instr) (rest : List AstLine)
    (h : jumpToken i = none) :
    jumpTokens (.Instr i :: rest) = jumpTokens rest := by
  simp [jumpTokens, h]

theorem jumpTokens_cons_label (t : Token) (rest : List AstLine) :
    jumpTokens (.Label t :: rest) = jumpTokens rest := by
  simp [jumpTokens]

theorem jumpTokens_cons_error (rest : List AstLine) :
    jumpTokens (.Error :: rest) = jumpTokens rest := by
  simp [jumpTokens]

/-- Pass 2 produces no error exactly when every jump token's label is a
key of the span table. -/
theorem checkRefs_nil_iff (lines : List AstLine) (spans : List (String × (Nat × Nat))) :
    checkRefs lines spans = [] ↔
      ∀ t ∈ jumpTokens lines, (spans.lookup t.inner).isSome := by
  induction lines with
  | nil => simp [checkRefs, jumpTokens]
  | cons line rest ih =>
    cases line with
    | Instr i =>
      rw [show checkRefs (.Instr i :: rest) spans =
        (match jumpToken i with
         | some t =>
           if (spans.lookup t.inner).isNone then [LabelError.Unknown t] else []
         | none => []) ++ checkRefs rest spans from rfl]
      cases hjt : jumpToken i with
      | some t =>
        rw [jumpTokens_cons_instr_some i t rest hjt]
        dsimp only
        by_cases hl : (spans.lookup t.inner).isNone
        · simp only [hl, if_pos]
          constructor
          · intro hcontra
            exact absurd hcontra (by simp)
          · intro hall
            have := hall t (List.mem_cons_self _ _)
            rw [Option.isNone_iff_eq_none.mp hl] at this
            exact absurd this (by simp)
        · rw [if_neg hl, List.nil_append, ih]
          constructor
          · intro hall t' ht'
            rcases List.mem_cons.mp ht' with rfl | hmem
            · cases hlk : spans.lookup t'.inner with
              | none => exact absurd (by simp [hlk]) hl
              | some v => simp
            · exact hall t' hmem
          · intro hall t' hmem
            exact hall t' (List.mem_cons_of_mem _ hmem)
      | none =>
        rw [jumpTokens_cons_instr_none i rest hjt]
        simpa using ih
    | Label t =>
      rw [jumpTokens_cons_label]
      simpa [checkRefs] using ih
    | Error =>
      rw [jumpTokens_cons_error]
      simpa [checkRefs] using ih

/-- After pass 1, a name is a key of the span table exactly when it was
already one or a `Label` line defines it. -/
theorem collectLabels_spans_isSome (lines : List AstLine) (idx : Nat)
    (labels : List (String × Nat)) (spans : List (String × (Nat × Nat)))
    (errs : List LabelError) (L : String) :
    ((collectLabels lines idx labels spans errs).2.1.lookup L).isSome ↔
      (spans.lookup L).isSome ∨ L ∈ labelNames lines := by
  induction lines generalizing idx labels spans errs with
  | nil => simp [collectLabels, labelNames]
  | cons line rest ih =>
    cases line with
    | Label t =>
      rw [labelNames_cons_label]
      cases hlk : spans.lookup t.inner with
      | some first =>
        simp only [collectLabels, hlk]
        rw [ih]
        constructor
        · rintro (h | h)
          · exact Or.inl h
          · exact Or.inr (List.mem_cons_of_mem _ h)
        · rintro (h | h)
          · exact Or.inl h
          · rcases List.mem_cons.mp h with rfl | hmem
            · exact Or.inl (by simp [hlk])
            · exact Or.inr hmem
      | none =>
        simp only [collectLabels, hlk]
        rw [ih, lookup_append_singleton_isSome]
        constructor
        · rintro ((h | h) | h)
          · exact Or.inl h
          · exact Or.inr (h ▸ List.mem_cons_self _ _)
          · exact Or.inr (List.mem_cons_of_mem _ h)
        · rintro (h | h)
          · exact Or.inl (Or.inl h)
          · rcases List.mem_cons.mp h with rfl | hmem
            · exact Or.inl (Or.inr rfl)
            · exact Or.inr hmem
    | Instr i =>
      simp only [collectLabels]
      rw [ih, labelNames_cons_instr]
    | Error =>
      simp only [collectLabels]
      rw [ih, labelNames_cons_error]

/-- Pass 1 keeps the key sets of the label table and the span table in
lock-step. -/
theorem collectLabels_keys_sync (lines : List AstLine) (idx : Nat)
    (labels : List (String × Nat)) (spans : List (String × (Nat × Nat)))
    (errs : List LabelError) (L : String)
    (h : (labels.lookup L).isSome ↔ (spans.lookup L).isSome) :
    ((collectLabels lines idx labels spans errs).1.lookup L).isSome ↔
      ((collectLabels lines idx labels spans errs).2.1.lookup L).isSome := by
  induction lines generalizing idx labels spans errs with
  | nil => simpa [collectLabels] using h
  | cons line rest ih =>
    cases line with
    | Label t =>
      cases hlk : spans.lookup t.inner with
      | some first =>
        simp only [collectLabels, hlk]
        exact ih _ _ _ _ h
      | none =>
        simp only [collectLabels, hlk]
        apply ih
        rw [lookup_append_singleton_isSome, lookup_append_singleton_isSome, h]
    | Instr i =>
      simp only [collectLabels]
      exact ih _ _ _ _ h
    | Error =>
      simp only [collectLabels]
      exact ih _ _ _ _ h

theorem isEmpty_true_iff (l : List LabelError) : l.isEmpty = true ↔ l = [] := by
  cases l <;> simp

/-- Claim C5: `resolve` returns an error result exactly when some label name
is defined more than once or some jump references an undefined name; the
error value is then the aggregated list (pass-1 redefinitions followed by
pass-2 unknowns) and no program is produced; otherwise it returns exactly
the `Instr` lines in order (Label and Error lines stripped) with the label
table. -/
theorem resolve_errors_iff (ast : List AstLine) :
    (resolve ast =
        .error ((collectLabels ast 0 [] [] []).2.2 ++
          checkRefs ast (collectLabels ast 0 [] [] []).2.1) ↔
      (¬ (labelNames ast).Nodup ∨ ∃ t ∈ jumpTokens ast, ¬ t.inner ∈ labelNames ast)) ∧
    (resolve ast = .ok (ast.filterMap instrOf, (collectLabels ast 0 [] [] []).1) ↔
      ¬ (¬ (labelNames ast).Nodup ∨ ∃ t ∈ jumpTokens ast, ¬ t.inner ∈ labelNames ast)) := by
  have hpass1 : (collectLabels ast 0 [] [] []).2.2 = [] ↔ (labelNames ast).Nodup := by
    rw [collectLabels_errs_nil_iff]
    simp [List.lookup]
  have hpass2 : checkRefs ast (collectLabels ast 0 [] [] []).2.1 = [] ↔
      ∀ t ∈ jumpTokens ast, t.inner ∈ labelNames ast := by
    rw [checkRefs_nil_iff]
    constructor
    · intro hall t ht
      have hx := hall t ht
      rw [collectLabels_spans_isSome] at hx
      rcases hx with hx | hx
      · simp [List.lookup] at hx
      · exact hx
    · intro hall t ht
      rw [collectLabels_spans_isSome]
      exact Or.inr (hall t ht)
  have hE : ((collectLabels ast 0 [] [] []).2.2 ++
      checkRefs ast (collectLabels ast 0 [] [] []).2.1 = []) ↔
      ((labelNames ast).Nodup ∧ ∀ t ∈ jumpTokens ast, t.inner ∈ labelNames ast) := by
    rw [List.append_eq_nil, hpass1, hpass2]
  have hcond : (¬ (labelNames ast).Nodup ∨
        ∃ t ∈ jumpTokens ast, ¬ t.inner ∈ labelNames ast) ↔
      ¬ ((labelNames ast).Nodup ∧ ∀ t ∈ jumpTokens ast, t.inner ∈ labelNames ast) := by
    constructor
    · rintro (h | ⟨t, ht, hn⟩) ⟨hnd, hall⟩
      · exact h hnd
      · exact hn (hall t ht)
    · intro h
      rcases Classical.em ((labelNames ast).Nodup) with hnd | hnd
      · right
        have : ¬ ∀ t ∈ jumpTokens ast, t.inner ∈ labelNames ast :=
          fun hall => h ⟨hnd, hall⟩
        push_neg at this
        exact this
      · exact Or.inl hnd
  simp only [resolve]
  by_cases hemp : ((collectLabels ast 0 [] [] []).2.2 ++
      checkRefs ast (collectLabels ast 0 [] [] []).2.1) = []
  · rw [if_pos ((isEmpty_true_iff _).mpr hemp)]
    constructor
    · constructor
      · intro hcontra
        exact absurd hcontra (by simp)
      · intro hc
        exact absurd (hE.mp hemp) (hcond.mp hc)
    · constructor
      · intro _
        exact fun hc => absurd (hE.mp hemp) (hcond.mp hc)
      · intro _
        rfl
  · rw [if_neg (fun hh => hemp ((isEmpty_true_iff _).mp hh))]
    constructor
    · constructor
      · intro _
        exact hcond.mpr fun hcon => hemp (hE.mpr hcon)
      · intro _
        rfl
    · constructor
      · intro hcontra
        exact absurd hcontra (by simp)
      · intro hc
        exact absurd (hcond.mpr fun hcon => hemp (hE.mpr hcon)) hc

/-- Claim C6: whenever `resolve` succeeds, the label token of every `Jmp`,
`Jnz` and `Jlz` instruction of the returned program is a key of the
returned label table, so the lookup `self.labels[&label.inner]` performed
when a jump executes cannot fail. -/
theorem resolve_jump_labels_present (ast : List AstLine) (prog : List Instr)
    (tbl : List (String × Nat)) (h : resolve ast = .ok (prog, tbl)) :
    ∀ i ∈ prog, ∀ t, jumpToken i = some t → (tbl.lookup t.inner).isSome := by
  simp only [resolve] at h
  by_cases hemp : ((collectLabels ast 0 [] [] []).2.2 ++
      checkRefs ast (collectLabels ast 0 [] [] []).2.1) = []
  · rw [if_pos ((isEmpty_true_iff _).mpr hemp)] at h
    injection h with h
    injection h with hprog htbl
    subst hprog
    subst htbl
    intro i hi t ht
    obtain ⟨line, hline, hinstr⟩ := List.mem_filterMap.mp hi
    have hline_eq : line = .Instr i := by
      cases line with
      | Instr j =>
        simp [instrOf] at hinstr
        rw [hinstr]
      | Label t2 => simp [instrOf] at hinstr
      | Error => simp [instrOf] at hinstr
    rw [hline_eq] at hline
    have hmem : t ∈ jumpTokens ast := List.mem_filterMap.mpr ⟨.Instr i, hline, ht⟩
    have hempty2 : checkRefs ast (collectLabels ast 0 [] [] []).2.1 = [] :=
      (List.append_eq_nil.mp hemp).2
    have hsome := (checkRefs_nil_iff ast _).mp hempty2 t hmem
    exact (collectLabels_keys_sync ast 0 [] [] [] t.inner (by simp [List.lookup])).mpr hsome
  · rw [if_neg (fun hh => hemp ((isEmpty_true_iff _).mp hh))] at h
    exact absurd h (by simp)

/-- Witness for `resolve_jump_labels_present`: the program
`a:` / `jmp a` resolves, and the jump's label is in the table. -/
theorem resolve_jump_labels_present_witness :
    (([("a", 0)] : List (String × Nat)).lookup "a").isSome := by
  have h := resolve_jump_labels_present
    [AstLine.Label ⟨"a", (0, 1)⟩, AstLine.Instr (Instr.Jmp ⟨"a", (3, 4)⟩)]
    [Instr.Jmp ⟨"a", (3, 4)⟩] [("a", 0)] rfl
  exact h (Instr.Jmp ⟨"a", (3, 4)⟩) (by simp) ⟨"a", (3, 4)⟩ rfl
